import Mathlib

/-!
Verification of the LFRic kernel-call argument-list engine
(`psyclone/domain/lfric/kern_call_arg_list.py`, class `KernCallArgList`).

The class builds, for one kernel call site, three synchronized structures:
a flat list of argument strings (`_arglist`), a parallel list of PSyIR
reference nodes (`_psyir_arglist`) and a variable-access ledger
(`var_accesses`), plus position records (`_nlayers_positions`,
`_nqp_positions`, `_ndf_positions`).

The base class `ArgOrdering` (its `append`, `extend`, `psyir_append`,
`append_integer_reference`, `append_array_reference`,
`find_or_create_integer_symbol` helpers and the `generate` driver) is not
part of the sources under verification; those helpers are modelled from
the specification, as are the class constants of `DynCMAOperators` and
the symbol-name helpers of `DynStencils`.
-/

namespace KernCallArgList

/-- Access kinds of the access ledger (`psyclone.core.AccessType`). -/
inductive AccessType where
  | read
  | write
  | readwrite
  | inc
  | sum
  deriving DecidableEq, Repr

/-- One entry of the access ledger: dotted signature, access kind,
originating kernel and optional component path
(`VariablesAccessInfo.add_access`). -/
structure AccessEvent where
  signature : String
  access : AccessType
  kern : String
  component : List String
  deriving DecidableEq, Repr

/-- PSyIR reference nodes, as used by `KernCallArgList`: plain references,
array references (a ":" index is `colon`), structure references,
array-of-structures references and literals. -/
inductive PSyIRNode where
  | reference : String → PSyIRNode
  | colon : PSyIRNode
  | literal : String → PSyIRNode
  | arrayReference : String → List PSyIRNode → PSyIRNode
  | structureReference : String → List String → PSyIRNode
  | arrayOfStructuresReference : String → List PSyIRNode → List String → PSyIRNode

/-- Position record for the quadrature-point counts of one XYoZ rule
(an entry of `_nqp_positions`). -/
structure NqpPos where
  horizontal : Nat
  vertical : Nat
  deriving DecidableEq, Repr

/-- Position record for a number-of-dofs argument
(`KernCallArgList.NdfInfo`). -/
structure NdfInfo where
  position : Nat
  functionSpace : String
  deriving DecidableEq, Repr

/-- The error classes raised by the code under verification.
`attributeError` models the Python runtime error raised when an expected
argument is absent (indexing an empty list / using `None`). -/
inductive Err where
  | internalError : String → Err
  | notImplementedError : String → Err
  | generationError : String → Err
  | attributeError : Err
  deriving DecidableEq, Repr

/-- One quadrature rule of `kern.qr_rules`: its `psy_name` (e.g.
`qr_xyoz`) and its `kernel_args` list of argument names. -/
structure QrRule where
  psyName : String
  kernelArgs : List String

/-- The slice of `FunctionSpace` consumed here: the original name and the
derived argument names (`ndf_name`, `undf_name`, `map_name`) together with
the basis-name generators (`get_basis_name` / `get_diff_basis_name`,
keyed either by a quadrature rule's `psy_name` or by a target function
space for evaluators). -/
structure FunctionSpace where
  origName : String
  ndfName : String
  undfName : String
  mapName : String
  getBasisNameQr : String → String
  getBasisNameOn : String → String
  getDiffBasisNameQr : String → String
  getDiffBasisNameOn : String → String

/-- The slice of `DynKernelArgument` consumed here. -/
structure Arg where
  name : String
  proxyName : String
  proxyNameIndexed : String
  moduleName : String
  proxyDataType : String
  access : AccessType
  metadataIndex : Nat
  vectorSize : Nat
  isLiteral : Bool
  intrinsicType : String
  fsToName : String
  fsFromName : String
  mesh : String
  isField : Bool
  argumentType : String
  stencilDirectionVarname : String
  deriving DecidableEq, Repr

/-- The slice of the kernel object (`DynKern`) consumed here. -/
structure Kern where
  name : String
  iteratesOver : String
  coloured : Bool
  colourmap : String
  qrRules : List (String × QrRule)
  evalShapes : List String
  evalTargets : List String
  args : List Arg
  uniqueFss : List FunctionSpace
  meshProps : List String
  argOnSpace : String → Arg

/-- The mutable state of one `KernCallArgList` instance: the flat string
argument list, the parallel PSyIR node list, the access ledger and the
three position records, plus the freeze flag set by `generate()`. -/
structure ArgState where
  arglist : List String
  psyirArglist : List PSyIRNode
  accesses : List AccessEvent
  nlayersPositions : List Nat
  nqpPositions : List NqpPos
  ndfPositions : List NdfInfo
  generateCalled : Bool

/-- The empty state a `KernCallArgList` starts from. -/
def ArgState.init : ArgState :=
  ⟨[], [], [], [], [], [], false⟩

/-- Modelled from the spec: `ArgOrdering.psyir_append` pushes one node
onto the parallel PSyIR reference tree. -/
def ArgState.psyirAppend (s : ArgState) (n : PSyIRNode) : ArgState :=
  { s with psyirArglist := s.psyirArglist ++ [n] }

/-- Modelled from the spec: recording one access event in the ledger
(`var_accesses.add_access`). -/
def ArgState.addAccess (s : ArgState) (sig : String) (mode : AccessType)
    (kern : String) (component : List String) : ArgState :=
  { s with accesses := s.accesses ++ [⟨sig, mode, kern, component⟩] }

/-- Modelled from the spec: `ArgOrdering.append` called without a
`var_accesses` object — pushes the string only. -/
def ArgState.appendStr (s : ArgState) (name : String) : ArgState :=
  { s with arglist := s.arglist ++ [name] }

/-- Modelled from the spec: `ArgOrdering.append(var_name, var_accesses,
var_access_name, mode)` — pushes the string and, when a `var_accesses`
object is supplied (`va = true`), records one access event under
`var_access_name` (defaulting to `var_name`) with the given mode. -/
def ArgState.appendA (s : ArgState) (varName : String) (va : Bool)
    (varAccessName : Option String) (mode : AccessType) (kern : String) :
    ArgState :=
  { s with
    arglist := s.arglist ++ [varName],
    accesses := s.accesses ++
      (if va then [⟨varAccessName.getD varName, mode, kern, []⟩] else []) }

/-- Modelled from the spec: `ArgOrdering.extend` pushes a list of strings
onto the flat list and, when a `var_accesses` object is supplied, records
one read access event per name (default mode of `extend` is read). -/
def ArgState.extendStrs (s : ArgState) (names : List String) (va : Bool)
    (kern : String) : ArgState :=
  { s with
    arglist := s.arglist ++ names,
    accesses := s.accesses ++
      (if va then names.map (fun n => ⟨n, AccessType.read, kern, []⟩)
       else []) }

/-- Modelled from the spec: `ArgOrdering.append_integer_reference` looks
up or creates an integer symbol of the given name and pushes a plain
reference to it onto the PSyIR list, returning the symbol name. -/
def ArgState.appendIntegerReference (s : ArgState) (name : String) :
    String × ArgState :=  (name, s.psyirAppend (PSyIRNode.reference name))

/-- Modelled from the spec: `ArgOrdering.append_array_reference` pushes
an array reference with the given indices onto the PSyIR list, returning
the symbol name. -/
def ArgState.appendArrayReference (s : ArgState) (name : String)
    (indices : List PSyIRNode) : String × ArgState :=
  (name, s.psyirAppend (PSyIRNode.arrayReference name indices))

/-- `cell_ref_name`: determines whether to use the plain cell loop index
or the colourmap lookup. Returns the display string and the PSyIR node;
when `va` holds, records the read accesses (colour, cell and the colour
map for a coloured kernel; just the cell otherwise). -/
def cell_ref_name (k : Kern) (va : Bool) (s : ArgState) :
    (String × PSyIRNode) × ArgState :=
  if k.coloured then
    let arrayRef := PSyIRNode.arrayReference "cmap"
      [PSyIRNode.reference "colour", PSyIRNode.reference "cell"]
    let s := if va then
        ((s.addAccess "colour" AccessType.read k.name []).addAccess
          "cell" AccessType.read k.name []).addAccess
          "cmap" AccessType.read k.name ["colour", "cell"]
      else s
    ((k.colourmap ++ "(colour,cell)", arrayRef), s)
  else
    let s := if va then s.addAccess "cell" AccessType.read k.name [] else s
    (("cell", PSyIRNode.reference "cell"), s)

/-- `cell_position`: appends the cell argument — the PSyIR node followed
by the display string (the string is appended without a `var_accesses`
object, so the only ledger events come from `cell_ref_name`). -/
def cell_position (k : Kern) (va : Bool) (s : ArgState) : ArgState :=
  let ((cellRefName, ref), s) := cell_ref_name k va s
  (s.psyirAppend ref).appendStr cellRefName

/-- `cell_map`: appends the cell map and the related cell counts for an
inter-grid kernel. Fails like Python (attribute error) when no coarse or
fine argument exists. -/
def cell_map (k : Kern) (va : Bool) (s : ArgState) : ArgState × Option Err :=
  match k.args.find? (fun a => a.mesh == "gh_coarse"),
        k.args.find? (fun a => a.mesh == "gh_fine") with
  | some carg, some farg =>
    let baseName := "cell_map_" ++ carg.name
    let ((cellRefName, cellRef), s) := cell_ref_name k va s
    let (symName, s) := s.appendArrayReference baseName
      [PSyIRNode.colon, PSyIRNode.colon, cellRef]
    let s := s.appendA (symName ++ "(:,:," ++ cellRefName ++ ")") va
      none AccessType.read k.name
    let (n1, s) := s.appendIntegerReference
      ("ncpc_" ++ farg.name ++ "_" ++ carg.name ++ "_x")
    let s := s.appendA n1 va none AccessType.read k.name
    let (n2, s) := s.appendIntegerReference
      ("ncpc_" ++ farg.name ++ "_" ++ carg.name ++ "_y")
    let s := s.appendA n2 va none AccessType.read k.name
    let (n3, s) := s.appendIntegerReference ("ncell_" ++ farg.name)
    (s.appendA n3 va none AccessType.read k.name, none)
  | _, _ => (s, some Err.attributeError)

/-- `mesh_height`: appends the `nlayers` argument and records its
position, only when the kernel iterates over `cell_column` or `domain`;
a no-op otherwise. -/
def mesh_height (k : Kern) (va : Bool) (s : ArgState) : ArgState :=
  if k.iteratesOver = "cell_column" ∨ k.iteratesOver = "domain" then
    let (symName, s) := s.appendIntegerReference "nlayers"
    let s := s.appendA symName va none AccessType.read k.name
    { s with nlayersPositions := s.nlayersPositions ++ [s.arglist.length] }
  else s

/-- Modelled from the spec: the expression-literal parser
(`FortranReader().psyir_from_expression` against an empty symbol table)
— yields a typed constant for well-formed literal text and fails on
malformed text. A literal is taken to be a non-empty digit string. -/
def parseLiteral (text : String) : Option PSyIRNode :=
  if text ≠ "" ∧ text.all Char.isDigit then some (PSyIRNode.literal text)
  else none

/-- The intrinsic scalar types the base class accepts (modelled from the
spec: a scalar of type other than real, integer or logical is rejected
with a NotImplementedError-class error). -/
def validScalarTypes : List String := ["real", "integer", "logical"]

/-- `scalar`: the base class validates the scalar type and appends the
string with the metadata-declared access mode; the subclass then appends
the PSyIR node — a parsed literal for a literal argument (an internal
error if the text does not parse) or a plain reference otherwise. -/
def scalar (k : Kern) (arg : Arg) (va : Bool) (s : ArgState) :
    ArgState × Option Err :=
  if arg.intrinsicType ∈ validScalarTypes then
    let s := s.appendA arg.name va none arg.access k.name
    if arg.isLiteral then
      match parseLiteral arg.name with
      | some lit => (s.psyirAppend lit, none)
      | none => (s, some (Err.internalError
          ("Unexpected literal expression '" ++ arg.name ++
           "' in scalar() when processing kernel '" ++ k.name ++ "'.")))
    else
      (s.psyirAppend (PSyIRNode.reference arg.name), none)
  else
    (s, some (Err.notImplementedError
        ("scalar of type '" ++ arg.intrinsicType ++ "' not supported")))

/-- `_mesh_ncell2d`: appends the number of columns in the mesh. -/
def mesh_ncell2d (k : Kern) (va : Bool) (s : ArgState) : ArgState :=
  let (symName, s) := s.appendIntegerReference "ncell_2d"
  s.appendA symName va none AccessType.read k.name

/-- `_mesh_ncell2d_no_halos`: appends the number of columns in the mesh
excluding those in the halo. -/
def mesh_ncell2d_no_halos (k : Kern) (va : Bool) (s : ArgState) :
    ArgState :=
  let (symName, s) := s.appendIntegerReference "ncell_2d_no_halos"
  s.appendA symName va none AccessType.read k.name

/-- One step of the `cma_operator` loop over `components`: the matrix
component is an array reference whose access mode comes from the
argument's metadata; every other component is an integer scalar with
read access. -/
def cmaComponentStep (k : Kern) (arg : Arg) (va : Bool) (s : ArgState)
    (component : String) : ArgState :=
  let name := arg.name ++ "_" ++ component
  if component = "matrix" then
    let (symName, s) := s.appendArrayReference name
      [PSyIRNode.colon, PSyIRNode.colon, PSyIRNode.colon]
    s.appendA symName va none arg.access k.name
  else
    let (symName, s) := s.appendIntegerReference name
    s.appendA symName va none AccessType.read k.name

/-- `cma_operator`: appends the CMA matrix followed by the auxiliary
scalars. The two constant name sets (`DynCMAOperators.cma_diff_fs_params`
and `cma_same_fs_params`, not among the sources under verification) are
passed in as parameters; the set used depends on whether the "to" and
"from" function spaces of the argument differ. -/
def cma_operator (k : Kern) (arg : Arg) (diffParams sameParams : List String)
    (va : Bool) (s : ArgState) : ArgState :=
  let components := "matrix" ::
    (if arg.fsToName ≠ arg.fsFromName then diffParams else sameParams)
  components.foldl (fun s c => cmaComponentStep k arg va s c) s

/-- The per-component loop of `field_vector` (indices 1 to
`vector_size`): each component appends one array-of-structures reference
into the proxy vector plus one display string; no per-component ledger
event is recorded. -/
def fieldVectorComponents (proxyName : String)
    (indices : List Nat) (s : ArgState) : ArgState :=
  indices.foldl (fun s idx =>
    let ref := PSyIRNode.arrayOfStructuresReference proxyName
      [PSyIRNode.literal (toString idx)] ["data"]
    let s := s.psyirAppend ref
    s.appendStr (proxyName ++ "(" ++ toString idx ++ ")%data")) s

/-- `field_vector`: appends one argument per vector component (components
1 .. `vector_size`) and then, when a `var_accesses` object is supplied,
records a single aggregate access event for the whole field vector under
the field's own name with its declared access mode. -/
def field_vector (k : Kern) (argvect : Arg) (va : Bool) (s : ArgState) :
    ArgState :=
  let s := fieldVectorComponents argvect.proxyName
    (List.range' 1 argvect.vectorSize) s
  if va then
    s.addAccess argvect.name argvect.access k.name []
  else s

/-- `field`: appends the `proxy%data` string — with the ledger event
recorded under the field's own name and the metadata-declared access
mode — followed by the structure-reference PSyIR node into the proxy. -/
def field (k : Kern) (arg : Arg) (va : Bool) (s : ArgState) : ArgState :=
  let text := arg.proxyName ++ "%data"
  let s := s.appendA text va (some arg.name) arg.access k.name
  s.psyirAppend (PSyIRNode.structureReference arg.proxyName ["data"])

/-- Modelled from the spec: `DynStencils.dofmap_size_symbol` — the name
of the stencil-size array for a kernel argument. -/
def stencilDofmapSizeName (arg : Arg) : String :=
  arg.name ++ "_stencil_size"

/-- Modelled from the spec: `DynStencils.dofmap_symbol` — the name of the
stencil dofmap array for a kernel argument. -/
def stencilDofmapName (arg : Arg) : String :=
  arg.name ++ "_stencil_dofmap"

/-- `stencil_unknown_extent`: appends the stencil-size array indexed by
the current cell. -/
def stencil_unknown_extent (k : Kern) (arg : Arg) (va : Bool)
    (s : ArgState) : ArgState :=
  let varName := stencilDofmapSizeName arg
  let ((cellName, cellRef), s) := cell_ref_name k va s
  let (_, s) := s.appendArrayReference varName [cellRef]
  s.appendA (varName ++ "(" ++ cellName ++ ")") va (some varName)
    AccessType.read k.name

/-- `stencil_2d_unknown_extent`: appends the 2D stencil-size array, with
a free first dimension, indexed by the current cell. -/
def stencil_2d_unknown_extent (k : Kern) (arg : Arg) (va : Bool)
    (s : ArgState) : ArgState :=
  let varName := stencilDofmapSizeName arg
  let ((cellName, cellRef), s) := cell_ref_name k va s
  let (_, s) := s.appendArrayReference varName [PSyIRNode.colon, cellRef]
  s.appendA (varName ++ "(:," ++ cellName ++ ")") va (some varName)
    AccessType.read k.name

/-- `stencil_2d_max_extent`: appends the maximum branch length scalar of
a 2D stencil. -/
def stencil_2d_max_extent (k : Kern) (arg : Arg) (va : Bool)
    (s : ArgState) : ArgState :=
  let (symName, s) := s.appendIntegerReference
    (arg.name ++ "_max_branch_length")
  s.appendA symName va none AccessType.read k.name

/-- `stencil_unknown_direction`: appends the stencil-direction variable. -/
def stencil_unknown_direction (k : Kern) (arg : Arg) (va : Bool)
    (s : ArgState) : ArgState :=
  let name := arg.stencilDirectionVarname
  let (_, s) := s.appendIntegerReference name
  s.appendA name va none AccessType.read k.name

/-- `stencil`: appends the stencil dofmap indexed by the current cell. -/
def stencil (k : Kern) (arg : Arg) (va : Bool) (s : ArgState) : ArgState :=
  let varName := stencilDofmapName arg
  let ((cellName, cellRef), s) := cell_ref_name k va s
  let (_, s) := s.appendArrayReference varName
    [PSyIRNode.colon, PSyIRNode.colon, cellRef]
  s.appendA (varName ++ "(:,:," ++ cellName ++ ")") va (some varName)
    AccessType.read k.name

/-- `stencil_2d`: appends the 2D stencil dofmap (direction baked into the
last free dimension) indexed by the current cell. -/
def stencil_2d (k : Kern) (arg : Arg) (va : Bool) (s : ArgState) :
    ArgState :=
  let varName := stencilDofmapName arg
  let ((cellName, cellRef), s) := cell_ref_name k va s
  let (_, s) := s.appendArrayReference varName
    [PSyIRNode.colon, PSyIRNode.colon, PSyIRNode.colon, cellRef]
  s.appendA (varName ++ "(:,:,:," ++ cellName ++ ")") va (some varName)
    AccessType.read k.name

/-- `operator`: appends the operator's read-only `ncell_3d` count
followed by its `local_stencil` matrix payload, whose access mode comes
from the metadata. Each argument is a structure access into the indexed
operator proxy. -/
def operator (k : Kern) (arg : Arg) (va : Bool) (s : ArgState) : ArgState :=
  let s := s.psyirAppend
    (PSyIRNode.structureReference arg.proxyNameIndexed ["ncell_3d"])
  let s := s.appendA (arg.proxyNameIndexed ++ "%ncell_3d") va none
    AccessType.read k.name
  let s := s.psyirAppend
    (PSyIRNode.structureReference arg.proxyNameIndexed ["local_stencil"])
  s.appendA (arg.proxyNameIndexed ++ "%local_stencil") va none
    arg.access k.name

/-- Modelled from the spec: the base class `ArgOrdering.fs_common`
appends the number-of-dofs count for the function space. -/
def fsCommonBase (k : Kern) (fs : FunctionSpace) (va : Bool)
    (s : ArgState) : ArgState :=
  let (symName, s) := s.appendIntegerReference fs.ndfName
  s.appendA symName va none AccessType.read k.name

/-- `fs_common` (subclass override): only when the kernel iterates over
`cell_column` or `domain`, appends the base-class arguments and records
an ndf position entry for the function space; a no-op otherwise. -/
def fs_common (k : Kern) (fs : FunctionSpace) (va : Bool) (s : ArgState) :
    ArgState :=
  if k.iteratesOver = "cell_column" ∨ k.iteratesOver = "domain" then
    let s := fsCommonBase k fs va s
    { s with ndfPositions :=
        s.ndfPositions ++ [⟨s.arglist.length, fs.origName⟩] }
  else s

/-- `fs_compulsory_field`: appends the undf count and the dofmap — the
whole 2D dofmap for a `domain` kernel, otherwise the column slice
indexed by the current cell. -/
def fs_compulsory_field (k : Kern) (fs : FunctionSpace) (va : Bool)
    (s : ArgState) : ArgState :=
  let (undfName, s) := s.appendIntegerReference fs.undfName
  let s := s.appendA undfName va none AccessType.read k.name
  if k.iteratesOver = "domain" then
    let (symName, s) := s.appendArrayReference fs.mapName
      [PSyIRNode.colon, PSyIRNode.colon]
    s.appendA symName va (some symName) AccessType.read k.name
  else
    let ((cellName, cellRef), s) := cell_ref_name k va s
    let (symName, s) := s.appendArrayReference fs.mapName
      [PSyIRNode.colon, cellRef]
    s.appendA (symName ++ "(:," ++ cellName ++ ")") va (some symName)
      AccessType.read k.name

/-- `fs_intergrid`: the fine-mesh side receives ndf, undf and the whole
dofmap; the coarse side receives only the compulsory (sliced) form. -/
def fs_intergrid (k : Kern) (fs : FunctionSpace) (va : Bool)
    (s : ArgState) : ArgState :=
  let arg := k.argOnSpace fs.origName
  if arg.mesh = "gh_fine" then
    let s := fs_common k fs va s
    let (undfName, s) := s.appendIntegerReference fs.undfName
    let s := s.appendA undfName va none AccessType.read k.name
    let (symName, s) := s.appendArrayReference fs.mapName
      [PSyIRNode.colon, PSyIRNode.colon]
    s.appendA symName va none AccessType.read k.name
  else
    fs_compulsory_field k fs va s

/-- `basis`: one four-dimensional basis array per quadrature rule; then,
when an evaluator shape is requested, one further three-dimensional
basis array per evaluator target function space. -/
def basis (k : Kern) (fs : FunctionSpace) (va : Bool) (s : ArgState) :
    ArgState :=
  let s := k.qrRules.foldl (fun s sr =>
    let basisName := fs.getBasisNameQr sr.2.psyName
    let (symName, s) := s.appendArrayReference basisName
      [PSyIRNode.colon, PSyIRNode.colon, PSyIRNode.colon, PSyIRNode.colon]
    s.appendA symName va none AccessType.read k.name) s
  if "gh_evaluator" ∈ k.evalShapes then
    k.evalTargets.foldl (fun s fsName =>
      let basisName := fs.getBasisNameOn fsName
      let (symName, s) := s.appendArrayReference basisName
        [PSyIRNode.colon, PSyIRNode.colon, PSyIRNode.colon]
      s.appendA symName va none AccessType.read k.name) s
  else s

/-- `diff_basis`: same shape as `basis` with the differential-basis
names. -/
def diff_basis (k : Kern) (fs : FunctionSpace) (va : Bool) (s : ArgState) :
    ArgState :=
  let s := k.qrRules.foldl (fun s sr =>
    let diffBasisName := fs.getDiffBasisNameQr sr.2.psyName
    let (symName, s) := s.appendArrayReference diffBasisName
      [PSyIRNode.colon, PSyIRNode.colon, PSyIRNode.colon, PSyIRNode.colon]
    s.appendA symName va none AccessType.read k.name) s
  if "gh_evaluator" ∈ k.evalShapes then
    k.evalTargets.foldl (fun s fsName =>
      let diffBasisName := fs.getDiffBasisNameOn fsName
      let (symName, s) := s.appendArrayReference diffBasisName
        [PSyIRNode.colon, PSyIRNode.colon, PSyIRNode.colon]
      s.appendA symName va none AccessType.read k.name) s
  else s

/-- `field_bcs_kernel`: locates the function space tagged `any_space_1`
(falling back, as the Python loop does, to the last space traversed),
checks that the argument on that space is a field — a generation error
otherwise — and appends the boundary-dofs array. An empty space list
fails like Python (attribute error on `None`). -/
def field_bcs_kernel (k : Kern) (va : Bool) (s : ArgState) :
    ArgState × Option Err :=
  let found := k.uniqueFss.find? (fun f => f.origName == "any_space_1")
  match found.or k.uniqueFss.getLast? with
  | none => (s, some Err.attributeError)
  | some fspace =>
    let farg := k.argOnSpace fspace.origName
    if farg.isField then
      let (symName, s) := s.appendArrayReference
        ("boundary_dofs_" ++ farg.name) [PSyIRNode.colon, PSyIRNode.colon]
      (s.appendA symName va none AccessType.read k.name, none)
    else
      (s, some (Err.generationError
        ("Expected an argument of a field type from which to look-up " ++
         "boundary dofs for kernel " ++ k.name ++ " but got '" ++
         farg.argumentType ++ "'")))

/-- `operator_bcs_kernel`: the kernel has a single LMA operator argument;
appends its boundary-dofs array. -/
def operator_bcs_kernel (k : Kern) (va : Bool) (s : ArgState) :
    ArgState × Option Err :=
  match k.args with
  | [] => (s, some Err.attributeError)
  | opArg :: _ =>
    let (symName, s) := s.appendArrayReference
      ("boundary_dofs_" ++ opArg.name) [PSyIRNode.colon, PSyIRNode.colon]
    (s.appendA symName va none AccessType.read k.name, none)

/-- Modelled from the spec: `mesh_properties` conditionally appends the
mesh-adjacency arrays requested in the kernel metadata (the helper
`LFRicMeshProperties.kern_args` is not among the sources under
verification); per the spec the flat list and the reference tree are
extended in step, one entry per requested property. -/
def mesh_properties (k : Kern) (va : Bool) (s : ArgState) : ArgState :=
  k.meshProps.foldl (fun s name =>
    let (symName, s) := s.appendArrayReference name [PSyIRNode.colon]
    s.appendA symName va none AccessType.read k.name) s

/-- The quadrature shapes `quad_rule` supports. -/
def supportedQrShapes : List String :=
  ["gh_quadrature_xyoz", "gh_quadrature_edge", "gh_quadrature_face"]

/-- The generic name of a quadrature kernel argument: the argument name
with the rule's `psy_name` suffix (and the joining underscore) removed —
Python's `arg[:-len(rule.psy_name)-1]`. -/
def genericName (arg : String) (psyName : String) : String :=
  arg.take (arg.length - (psyName.length + 1))

/-- The PSyIR-definition loop at the end of each `quad_rule` iteration:
integer references for the point/face/edge counts, 1D arrays for the
`weights_xy`/`weights_z` weights, 2D arrays for `weights_xyz`; any other
generic name is an internal error (raised before that argument's node is
appended). -/
def quadPsyirLoop (psyName : String) (args : List String) (s : ArgState) :
    ArgState × Option Err :=
  match args with
  | [] => (s, none)
  | arg :: rest =>
    let g := genericName arg psyName
    if g ∈ ["np_xy", "np_z", "nfaces", "np_xyz", "nedges"] then
      quadPsyirLoop psyName rest
        (s.psyirAppend (PSyIRNode.reference arg))
    else if g ∈ ["weights_xy", "weights_z"] then
      quadPsyirLoop psyName rest
        (s.psyirAppend (PSyIRNode.arrayReference arg [PSyIRNode.colon]))
    else if g = "weights_xyz" then
      quadPsyirLoop psyName rest
        (s.psyirAppend (PSyIRNode.arrayReference arg
          [PSyIRNode.colon, PSyIRNode.colon]))
    else
      (s, some (Err.internalError
        ("Found invalid kernel argument '" ++ arg ++ "'.")))

/-- The loop of `quad_rule` over the kernel's quadrature rules: an XYoZ
rule first records the positions of its horizontal and vertical
point-count arguments (the two slots following the current argument
count), then every supported rule extends the flat list with the rule's
kernel arguments and appends their PSyIR nodes; an unsupported shape
raises a NotImplementedError-class error. As in Python, state mutated by
earlier iterations survives an error raised by a later one. -/
def quadRuleLoop (k : Kern) (va : Bool)
    (rules : List (String × QrRule)) (s : ArgState) : ArgState × Option Err :=
  match rules with
  | [] => (s, none)
  | (shape, rule) :: rest =>
    if shape = "gh_quadrature_xyoz" then
      let s := { s with nqpPositions := s.nqpPositions ++
        [NqpPos.mk (s.arglist.length + 1) (s.arglist.length + 2)] }
      let s := s.extendStrs rule.kernelArgs va k.name
      match quadPsyirLoop rule.psyName rule.kernelArgs s with
      | (s, none) => quadRuleLoop k va rest s
      | r => r
    else if shape = "gh_quadrature_edge" ∨ shape = "gh_quadrature_face" then
      let s := s.extendStrs rule.kernelArgs va k.name
      match quadPsyirLoop rule.psyName rule.kernelArgs s with
      | (s, none) => quadRuleLoop k va rest s
      | r => r
    else
      (s, some (Err.notImplementedError
        ("quad_rule: no support implemented for quadrature with a " ++
         "shape of '" ++ shape ++ "'.")))

/-- `quad_rule`: adds the quadrature-related arguments for every rule of
the kernel. -/
def quad_rule (k : Kern) (va : Bool) (s : ArgState) : ArgState × Option Err :=
  quadRuleLoop k va k.qrRules s

/-- `nlayers_positions` property: an internal error before `generate()`
has been called, the recorded positions afterwards. -/
def nlayers_positions (s : ArgState) : Except Err (List Nat) :=
  if s.generateCalled then Except.ok s.nlayersPositions
  else Except.error (Err.internalError
    ("KernCallArgList: the generate() method should be called before " ++
     "the nlayers_positions() method"))

/-- `nqp_positions` property: an internal error before `generate()` has
been called, the recorded positions afterwards. -/
def nqp_positions (s : ArgState) : Except Err (List NqpPos) :=
  if s.generateCalled then Except.ok s.nqpPositions
  else Except.error (Err.internalError
    ("KernCallArgList: the generate() method should be called before " ++
     "the nqp_positions() method"))

/-- `ndf_positions` property: an internal error before `generate()` has
been called, the recorded positions afterwards. -/
def ndf_positions (s : ArgState) : Except Err (List NdfInfo) :=
  if s.generateCalled then Except.ok s.ndfPositions
  else Except.error (Err.internalError
    ("KernCallArgList: the generate() method should be called before " ++
     "the ndf_positions() method"))

/-- One invocation of an emit operation of `KernCallArgList`, with the
data the external traversal driver passes it. The CMA call carries the
two auxiliary-parameter name sets of `DynCMAOperators`. -/
inductive EmitCall where
  | cellPosition : EmitCall
  | cellMap : EmitCall
  | meshHeight : EmitCall
  | scalarArg : Arg → EmitCall
  | meshNcell2d : EmitCall
  | meshNcell2dNoHalos : EmitCall
  | cmaOperator : Arg → List String → List String → EmitCall
  | fieldVector : Arg → EmitCall
  | fieldArg : Arg → EmitCall
  | stencilUnknownExtent : Arg → EmitCall
  | stencil2dUnknownExtent : Arg → EmitCall
  | stencil2dMaxExtent : Arg → EmitCall
  | stencilUnknownDirection : Arg → EmitCall
  | stencilArg : Arg → EmitCall
  | stencil2dArg : Arg → EmitCall
  | operatorArg : Arg → EmitCall
  | fsCommon : FunctionSpace → EmitCall
  | fsCompulsoryField : FunctionSpace → EmitCall
  | fsIntergrid : FunctionSpace → EmitCall
  | basisCall : FunctionSpace → EmitCall
  | diffBasisCall : FunctionSpace → EmitCall
  | fieldBcsKernel : EmitCall
  | operatorBcsKernel : EmitCall
  | meshProperties : EmitCall
  | quadRuleCall : EmitCall

/-- Dispatch one emit call on the current state. Operations that cannot
raise return no error; the others return the state as mutated up to the
point of the raise, exactly as the Python object would be left. -/
def emitStep (k : Kern) (va : Bool) (c : EmitCall) (s : ArgState) :
    ArgState × Option Err :=
  match c with
  | EmitCall.cellPosition => (cell_position k va s, none)
  | EmitCall.cellMap => cell_map k va s
  | EmitCall.meshHeight => (mesh_height k va s, none)
  | EmitCall.scalarArg a => scalar k a va s
  | EmitCall.meshNcell2d => (mesh_ncell2d k va s, none)
  | EmitCall.meshNcell2dNoHalos => (mesh_ncell2d_no_halos k va s, none)
  | EmitCall.cmaOperator a dp sp => (cma_operator k a dp sp va s, none)
  | EmitCall.fieldVector a => (field_vector k a va s, none)
  | EmitCall.fieldArg a => (field k a va s, none)
  | EmitCall.stencilUnknownExtent a => (stencil_unknown_extent k a va s, none)
  | EmitCall.stencil2dUnknownExtent a =>
      (stencil_2d_unknown_extent k a va s, none)
  | EmitCall.stencil2dMaxExtent a => (stencil_2d_max_extent k a va s, none)
  | EmitCall.stencilUnknownDirection a =>
      (stencil_unknown_direction k a va s, none)
  | EmitCall.stencilArg a => (stencil k a va s, none)
  | EmitCall.stencil2dArg a => (stencil_2d k a va s, none)
  | EmitCall.operatorArg a => (operator k a va s, none)
  | EmitCall.fsCommon fs => (fs_common k fs va s, none)
  | EmitCall.fsCompulsoryField fs => (fs_compulsory_field k fs va s, none)
  | EmitCall.fsIntergrid fs => (fs_intergrid k fs va s, none)
  | EmitCall.basisCall fs => (basis k fs va s, none)
  | EmitCall.diffBasisCall fs => (diff_basis k fs va s, none)
  | EmitCall.fieldBcsKernel => field_bcs_kernel k va s
  | EmitCall.operatorBcsKernel => operator_bcs_kernel k va s
  | EmitCall.meshProperties => (mesh_properties k va s, none)
  | EmitCall.quadRuleCall => quad_rule k va s

/-- Run a sequence of emit calls, stopping at the first error (any error
aborts the whole call-site compilation). -/
def runEmits (k : Kern) (va : Bool) (cs : List EmitCall) (s : ArgState) :
    ArgState × Option Err :=
  match cs with
  | [] => (s, none)
  | c :: rest =>
    match emitStep k va c s with
    | (s, none) => runEmits k va rest s
    | r => r

/-- Modelled from the spec: `ArgOrdering.generate` drives the traversal
and performs the single Open→Frozen transition, after which the position
records become queryable. -/
def generate (k : Kern) (va : Bool) (cs : List EmitCall) (s : ArgState) :
    ArgState × Option Err :=
  let (s, e) := runEmits k va cs s
  ({ s with generateCalled := true }, e)

/-- The synchronization invariant: the flat string argument list and the
parallel PSyIR reference list have the same number of entries. -/
def sync (s : ArgState) : Prop :=
  s.arglist.length = s.psyirArglist.length

instance (s : ArgState) : Decidable (sync s) := by
  unfold sync; infer_instance

/-! ### Field lemmas for the state helpers -/

@[simp] theorem psyirAppend_arglist (s : ArgState) (n : PSyIRNode) :
    (s.psyirAppend n).arglist = s.arglist := rfl

@[simp] theorem psyirAppend_psyir (s : ArgState) (n : PSyIRNode) :
    (s.psyirAppend n).psyirArglist = s.psyirArglist ++ [n] := rfl

@[simp] theorem psyirAppend_accesses (s : ArgState) (n : PSyIRNode) :
    (s.psyirAppend n).accesses = s.accesses := rfl

@[simp] theorem psyirAppend_nlayers (s : ArgState) (n : PSyIRNode) :
    (s.psyirAppend n).nlayersPositions = s.nlayersPositions := rfl

@[simp] theorem psyirAppend_nqp (s : ArgState) (n : PSyIRNode) :
    (s.psyirAppend n).nqpPositions = s.nqpPositions := rfl

@[simp] theorem psyirAppend_ndf (s : ArgState) (n : PSyIRNode) :
    (s.psyirAppend n).ndfPositions = s.ndfPositions := rfl

@[simp] theorem psyirAppend_gen (s : ArgState) (n : PSyIRNode) :
    (s.psyirAppend n).generateCalled = s.generateCalled := rfl

@[simp] theorem addAccess_arglist (s : ArgState) (g : String)
    (m : AccessType) (kn : String) (cp : List String) :
    (s.addAccess g m kn cp).arglist = s.arglist := rfl

@[simp] theorem addAccess_psyir (s : ArgState) (g : String)
    (m : AccessType) (kn : String) (cp : List String) :
    (s.addAccess g m kn cp).psyirArglist = s.psyirArglist := rfl

@[simp] theorem addAccess_accesses (s : ArgState) (g : String)
    (m : AccessType) (kn : String) (cp : List String) :
    (s.addAccess g m kn cp).accesses = s.accesses ++ [⟨g, m, kn, cp⟩] := rfl

@[simp] theorem addAccess_nlayers (s : ArgState) (g : String)
    (m : AccessType) (kn : String) (cp : List String) :
    (s.addAccess g m kn cp).nlayersPositions = s.nlayersPositions := rfl

@[simp] theorem addAccess_nqp (s : ArgState) (g : String)
    (m : AccessType) (kn : String) (cp : List String) :
    (s.addAccess g m kn cp).nqpPositions = s.nqpPositions := rfl

@[simp] theorem addAccess_ndf (s : ArgState) (g : String)
    (m : AccessType) (kn : String) (cp : List String) :
    (s.addAccess g m kn cp).ndfPositions = s.ndfPositions := rfl

@[simp] theorem addAccess_gen (s : ArgState) (g : String)
    (m : AccessType) (kn : String) (cp : List String) :
    (s.addAccess g m kn cp).generateCalled = s.generateCalled := rfl

@[simp] theorem appendStr_arglist (s : ArgState) (n : String) :
    (s.appendStr n).arglist = s.arglist ++ [n] := rfl

@[simp] theorem appendStr_psyir (s : ArgState) (n : String) :
    (s.appendStr n).psyirArglist = s.psyirArglist := rfl

@[simp] theorem appendStr_accesses (s : ArgState) (n : String) :
    (s.appendStr n).accesses = s.accesses := rfl

@[simp] theorem appendStr_nlayers (s : ArgState) (n : String) :
    (s.appendStr n).nlayersPositions = s.nlayersPositions := rfl

@[simp] theorem appendStr_nqp (s : ArgState) (n : String) :
    (s.appendStr n).nqpPositions = s.nqpPositions := rfl

@[simp] theorem appendStr_ndf (s : ArgState) (n : String) :
    (s.appendStr n).ndfPositions = s.ndfPositions := rfl

@[simp] theorem appendStr_gen (s : ArgState) (n : String) :
    (s.appendStr n).generateCalled = s.generateCalled := rfl

@[simp] theorem appendA_arglist (s : ArgState) (v : String) (va : Bool)
    (an : Option String) (m : AccessType) (kn : String) :
    (s.appendA v va an m kn).arglist = s.arglist ++ [v] := rfl

@[simp] theorem appendA_psyir (s : ArgState) (v : String) (va : Bool)
    (an : Option String) (m : AccessType) (kn : String) :
    (s.appendA v va an m kn).psyirArglist = s.psyirArglist := rfl

@[simp] theorem appendA_accesses (s : ArgState) (v : String) (va : Bool)
    (an : Option String) (m : AccessType) (kn : String) :
    (s.appendA v va an m kn).accesses = s.accesses ++
      (if va then [⟨an.getD v, m, kn, []⟩] else []) := rfl

@[simp] theorem appendA_nlayers (s : ArgState) (v : String) (va : Bool)
    (an : Option String) (m : AccessType) (kn : String) :
    (s.appendA v va an m kn).nlayersPositions = s.nlayersPositions := rfl

@[simp] theorem appendA_nqp (s : ArgState) (v : String) (va : Bool)
    (an : Option String) (m : AccessType) (kn : String) :
    (s.appendA v va an m kn).nqpPositions = s.nqpPositions := rfl

@[simp] theorem appendA_ndf (s : ArgState) (v : String) (va : Bool)
    (an : Option String) (m : AccessType) (kn : String) :
    (s.appendA v va an m kn).ndfPositions = s.ndfPositions := rfl

@[simp] theorem appendA_gen (s : ArgState) (v : String) (va : Bool)
    (an : Option String) (m : AccessType) (kn : String) :
    (s.appendA v va an m kn).generateCalled = s.generateCalled := rfl

@[simp] theorem extendStrs_arglist (s : ArgState) (ns : List String)
    (va : Bool) (kn : String) :
    (s.extendStrs ns va kn).arglist = s.arglist ++ ns := rfl

@[simp] theorem extendStrs_psyir (s : ArgState) (ns : List String)
    (va : Bool) (kn : String) :
    (s.extendStrs ns va kn).psyirArglist = s.psyirArglist := rfl

@[simp] theorem extendStrs_nqp (s : ArgState) (ns : List String)
    (va : Bool) (kn : String) :
    (s.extendStrs ns va kn).nqpPositions = s.nqpPositions := rfl

@[simp] theorem extendStrs_gen (s : ArgState) (ns : List String)
    (va : Bool) (kn : String) :
    (s.extendStrs ns va kn).generateCalled = s.generateCalled := rfl

@[simp] theorem appendIntegerReference_fst (s : ArgState) (n : String) :
    (s.appendIntegerReference n).1 = n := rfl

@[simp] theorem appendIntegerReference_snd (s : ArgState) (n : String) :
    (s.appendIntegerReference n).2 =
      s.psyirAppend (PSyIRNode.reference n) := rfl

@[simp] theorem appendArrayReference_fst (s : ArgState) (n : String)
    (ix : List PSyIRNode) : (s.appendArrayReference n ix).1 = n := rfl

@[simp] theorem appendArrayReference_snd (s : ArgState) (n : String)
    (ix : List PSyIRNode) : (s.appendArrayReference n ix).2 =
      s.psyirAppend (PSyIRNode.arrayReference n ix) := rfl

/-! ### `cell_ref_name` leaves both parallel lists untouched -/

theorem cell_ref_name_arglist (k : Kern) (va : Bool) (s : ArgState) :
    ((cell_ref_name k va s).2).arglist = s.arglist := by
  unfold cell_ref_name
  split <;> split <;> simp

theorem cell_ref_name_psyir (k : Kern) (va : Bool) (s : ArgState) :
    ((cell_ref_name k va s).2).psyirArglist = s.psyirArglist := by
  unfold cell_ref_name
  split <;> split <;> simp

theorem cell_ref_name_nlayers (k : Kern) (va : Bool) (s : ArgState) :
    ((cell_ref_name k va s).2).nlayersPositions = s.nlayersPositions := by
  unfold cell_ref_name
  split <;> split <;> simp

theorem cell_ref_name_nqp (k : Kern) (va : Bool) (s : ArgState) :
    ((cell_ref_name k va s).2).nqpPositions = s.nqpPositions := by
  unfold cell_ref_name
  split <;> split <;> simp

theorem cell_ref_name_ndf (k : Kern) (va : Bool) (s : ArgState) :
    ((cell_ref_name k va s).2).ndfPositions = s.ndfPositions := by
  unfold cell_ref_name
  split <;> split <;> simp

theorem cell_ref_name_gen (k : Kern) (va : Bool) (s : ArgState) :
    ((cell_ref_name k va s).2).generateCalled = s.generateCalled := by
  unfold cell_ref_name
  split <;> split <;> simp

/-! ### Synchronization: every emit keeps the two lists the same length -/

/-- A fold whose step appends one string and one node extends both lists
by the length of the folded list. -/
theorem foldl_lengths {α : Type} (f : ArgState → α → ArgState)
    (hf : ∀ s a, (f s a).arglist.length = s.arglist.length + 1 ∧
        (f s a).psyirArglist.length = s.psyirArglist.length + 1) :
    ∀ (l : List α) (s : ArgState),
      (l.foldl f s).arglist.length = s.arglist.length + l.length ∧
      (l.foldl f s).psyirArglist.length =
        s.psyirArglist.length + l.length := by
  intro l
  induction l with
  | nil => intro s; simp
  | cons a t ih =>
    intro s
    have h1 := hf s a
    have h2 := ih (f s a)
    simp only [List.foldl_cons, List.length_cons]
    omega

theorem cell_position_lengths (k : Kern) (va : Bool) (s : ArgState) :
    (cell_position k va s).arglist.length = s.arglist.length + 1 ∧
    (cell_position k va s).psyirArglist.length =
      s.psyirArglist.length + 1 := by
  have h1 := cell_ref_name_arglist k va s
  have h2 := cell_ref_name_psyir k va s
  unfold cell_position
  rcases hcr : cell_ref_name k va s with ⟨⟨n, r⟩, s2⟩
  have h1 : s2.arglist = s.arglist := by rw [hcr] at h1; exact h1
  have h2 : s2.psyirArglist = s.psyirArglist := by rw [hcr] at h2; exact h2
  simp [h1, h2]

theorem mesh_height_lengths (k : Kern) (va : Bool) (s : ArgState) :
    ((mesh_height k va s).arglist.length = s.arglist.length + 1 ∧
     (mesh_height k va s).psyirArglist.length =
       s.psyirArglist.length + 1) ∨
    mesh_height k va s = s := by
  unfold mesh_height
  split
  · left; simp
  · right; rfl

theorem scalar_sync (k : Kern) (a : Arg) (va : Bool) (s s2 : ArgState)
    (h : scalar k a va s = (s2, none)) (hs : sync s) : sync s2 := by
  unfold scalar at h
  split at h
  · split at h
    · rcases hp : parseLiteral a.name with _ | lit <;> rw [hp] at h <;>
        simp at h
      cases h
      simp [sync] at hs ⊢
      omega
    · simp at h
      cases h
      simp [sync] at hs ⊢
      omega
  · simp at h

theorem cell_map_sync (k : Kern) (va : Bool) (s s2 : ArgState)
    (h : cell_map k va s = (s2, none)) (hs : sync s) : sync s2 := by
  unfold cell_map at h
  have h1 := cell_ref_name_arglist k va s
  have h2 := cell_ref_name_psyir k va s
  rcases hf1 : k.args.find? (fun a => a.mesh == "gh_coarse") with _ | carg <;>
    rw [hf1] at h <;>
    rcases hf2 : k.args.find? (fun a => a.mesh == "gh_fine") with _ | farg <;>
      rw [hf2] at h <;> simp at h
  rcases hcr : cell_ref_name k va s with ⟨⟨n, r⟩, s3⟩
  rw [hcr] at h
  have h1 : s3.arglist = s.arglist := by rw [hcr] at h1; exact h1
  have h2 : s3.psyirArglist = s.psyirArglist := by rw [hcr] at h2; exact h2
  simp at h
  subst h
  simp [sync, h1, h2] at hs ⊢
  omega

theorem mesh_ncell2d_lengths (k : Kern) (va : Bool) (s : ArgState) :
    (mesh_ncell2d k va s).arglist.length = s.arglist.length + 1 ∧
    (mesh_ncell2d k va s).psyirArglist.length =
      s.psyirArglist.length + 1 := by
  unfold mesh_ncell2d; simp

theorem mesh_ncell2d_no_halos_lengths (k : Kern) (va : Bool)
    (s : ArgState) :
    (mesh_ncell2d_no_halos k va s).arglist.length = s.arglist.length + 1 ∧
    (mesh_ncell2d_no_halos k va s).psyirArglist.length =
      s.psyirArglist.length + 1 := by
  unfold mesh_ncell2d_no_halos; simp

theorem cmaComponentStep_lengths (k : Kern) (a : Arg) (va : Bool)
    (s : ArgState) (c : String) :
    (cmaComponentStep k a va s c).arglist.length = s.arglist.length + 1 ∧
    (cmaComponentStep k a va s c).psyirArglist.length =
      s.psyirArglist.length + 1 := by
  unfold cmaComponentStep
  split <;> simp

theorem cma_operator_lengths (k : Kern) (a : Arg)
    (dp sp : List String) (va : Bool) (s : ArgState) :
    (cma_operator k a dp sp va s).arglist.length =
      s.arglist.length + 1 +
        (if a.fsToName ≠ a.fsFromName then dp else sp).length ∧
    (cma_operator k a dp sp va s).psyirArglist.length =
      s.psyirArglist.length + 1 +
        (if a.fsToName ≠ a.fsFromName then dp else sp).length := by
  unfold cma_operator
  dsimp only
  have := foldl_lengths (fun s c => cmaComponentStep k a va s c)
    (fun s c => cmaComponentStep_lengths k a va s c)
    ("matrix" :: (if a.fsToName ≠ a.fsFromName then dp else sp)) s
  simp only [List.length_cons] at this
  constructor <;> omega

theorem fieldVectorComponents_lengths (p : String) (l : List Nat)
    (s : ArgState) :
    (fieldVectorComponents p l s).arglist.length =
      s.arglist.length + l.length ∧
    (fieldVectorComponents p l s).psyirArglist.length =
      s.psyirArglist.length + l.length := by
  unfold fieldVectorComponents
  exact foldl_lengths _ (fun s i => by simp) l s

theorem field_vector_lengths (k : Kern) (a : Arg) (va : Bool)
    (s : ArgState) :
    (field_vector k a va s).arglist.length =
      s.arglist.length + a.vectorSize ∧
    (field_vector k a va s).psyirArglist.length =
      s.psyirArglist.length + a.vectorSize := by
  unfold field_vector
  have := fieldVectorComponents_lengths a.proxyName
    (List.range' 1 a.vectorSize) s
  simp only [List.length_range'] at this
  split <;> simp [this]

theorem field_lengths (k : Kern) (a : Arg) (va : Bool) (s : ArgState) :
    (field k a va s).arglist.length = s.arglist.length + 1 ∧
    (field k a va s).psyirArglist.length = s.psyirArglist.length + 1 := by
  unfold field; simp

theorem stencil_unknown_extent_lengths (k : Kern) (a : Arg) (va : Bool)
    (s : ArgState) :
    (stencil_unknown_extent k a va s).arglist.length =
      s.arglist.length + 1 ∧
    (stencil_unknown_extent k a va s).psyirArglist.length =
      s.psyirArglist.length + 1 := by
  have h1 := cell_ref_name_arglist k va s
  have h2 := cell_ref_name_psyir k va s
  unfold stencil_unknown_extent
  rcases hcr : cell_ref_name k va s with ⟨⟨n, r⟩, s2⟩
  have h1 : s2.arglist = s.arglist := by rw [hcr] at h1; exact h1
  have h2 : s2.psyirArglist = s.psyirArglist := by rw [hcr] at h2; exact h2
  simp [h1, h2]

theorem stencil_2d_unknown_extent_lengths (k : Kern) (a : Arg) (va : Bool)
    (s : ArgState) :
    (stencil_2d_unknown_extent k a va s).arglist.length =
      s.arglist.length + 1 ∧
    (stencil_2d_unknown_extent k a va s).psyirArglist.length =
      s.psyirArglist.length + 1 := by
  have h1 := cell_ref_name_arglist k va s
  have h2 := cell_ref_name_psyir k va s
  unfold stencil_2d_unknown_extent
  rcases hcr : cell_ref_name k va s with ⟨⟨n, r⟩, s2⟩
  have h1 : s2.arglist = s.arglist := by rw [hcr] at h1; exact h1
  have h2 : s2.psyirArglist = s.psyirArglist := by rw [hcr] at h2; exact h2
  simp [h1, h2]

theorem stencil_2d_max_extent_lengths (k : Kern) (a : Arg) (va : Bool)
    (s : ArgState) :
    (stencil_2d_max_extent k a va s).arglist.length =
      s.arglist.length + 1 ∧
    (stencil_2d_max_extent k a va s).psyirArglist.length =
      s.psyirArglist.length + 1 := by
  unfold stencil_2d_max_extent; simp

theorem stencil_unknown_direction_lengths (k : Kern) (a : Arg)
    (va : Bool) (s : ArgState) :
    (stencil_unknown_direction k a va s).arglist.length =
      s.arglist.length + 1 ∧
    (stencil_unknown_direction k a va s).psyirArglist.length =
      s.psyirArglist.length + 1 := by
  unfold stencil_unknown_direction; simp

theorem stencil_lengths (k : Kern) (a : Arg) (va : Bool) (s : ArgState) :
    (stencil k a va s).arglist.length = s.arglist.length + 1 ∧
    (stencil k a va s).psyirArglist.length =
      s.psyirArglist.length + 1 := by
  have h1 := cell_ref_name_arglist k va s
  have h2 := cell_ref_name_psyir k va s
  unfold stencil
  rcases hcr : cell_ref_name k va s with ⟨⟨n, r⟩, s2⟩
  have h1 : s2.arglist = s.arglist := by rw [hcr] at h1; exact h1
  have h2 : s2.psyirArglist = s.psyirArglist := by rw [hcr] at h2; exact h2
  simp [h1, h2]

theorem stencil_2d_lengths (k : Kern) (a : Arg) (va : Bool)
    (s : ArgState) :
    (stencil_2d k a va s).arglist.length = s.arglist.length + 1 ∧
    (stencil_2d k a va s).psyirArglist.length =
      s.psyirArglist.length + 1 := by
  have h1 := cell_ref_name_arglist k va s
  have h2 := cell_ref_name_psyir k va s
  unfold stencil_2d
  rcases hcr : cell_ref_name k va s with ⟨⟨n, r⟩, s2⟩
  have h1 : s2.arglist = s.arglist := by rw [hcr] at h1; exact h1
  have h2 : s2.psyirArglist = s.psyirArglist := by rw [hcr] at h2; exact h2
  simp [h1, h2]

theorem operator_lengths (k : Kern) (a : Arg) (va : Bool) (s : ArgState) :
    (operator k a va s).arglist.length = s.arglist.length + 2 ∧
    (operator k a va s).psyirArglist.length =
      s.psyirArglist.length + 2 := by
  unfold operator; simp

theorem fs_common_sync (k : Kern) (fs : FunctionSpace) (va : Bool)
    (s : ArgState) (hs : sync s) : sync (fs_common k fs va s) := by
  unfold fs_common fsCommonBase
  simp [sync] at hs
  split <;> simp [sync, hs]

theorem fs_compulsory_field_lengths (k : Kern) (fs : FunctionSpace)
    (va : Bool) (s : ArgState) :
    (fs_compulsory_field k fs va s).arglist.length =
      s.arglist.length + 2 ∧
    (fs_compulsory_field k fs va s).psyirArglist.length =
      s.psyirArglist.length + 2 := by
  unfold fs_compulsory_field
  simp only [ArgState.appendIntegerReference, ArgState.appendArrayReference]
  split <;> simp [cell_ref_name_arglist, cell_ref_name_psyir]

theorem fs_intergrid_sync (k : Kern) (fs : FunctionSpace) (va : Bool)
    (s : ArgState) (hs : sync s) : sync (fs_intergrid k fs va s) := by
  unfold fs_intergrid
  dsimp only
  split
  · have hc := fs_common_sync k fs va s hs
    simp only [ArgState.appendIntegerReference, ArgState.appendArrayReference]
    simp [sync] at hc ⊢
    omega
  · have := fs_compulsory_field_lengths k fs va s
    simp [sync] at hs ⊢
    omega

/-- A fold whose step appends one string and one node preserves the
synchronization invariant. -/
theorem foldl_sync {α : Type} (f : ArgState → α → ArgState)
    (hf : ∀ s a, (f s a).arglist.length = s.arglist.length + 1 ∧
        (f s a).psyirArglist.length = s.psyirArglist.length + 1)
    (l : List α) (s : ArgState) (hs : sync s) : sync (l.foldl f s) := by
  have := foldl_lengths f hf l s
  simp [sync] at hs ⊢
  omega

theorem basis_sync (k : Kern) (fs : FunctionSpace) (va : Bool)
    (s : ArgState) (hs : sync s) : sync (basis k fs va s) := by
  unfold basis
  split
  · exact foldl_sync _ (fun s a => by simp) _ _
      (foldl_sync _ (fun s a => by simp) _ _ hs)
  · exact foldl_sync _ (fun s a => by simp) _ _ hs

theorem diff_basis_sync (k : Kern) (fs : FunctionSpace) (va : Bool)
    (s : ArgState) (hs : sync s) : sync (diff_basis k fs va s) := by
  unfold diff_basis
  split
  · exact foldl_sync _ (fun s a => by simp) _ _
      (foldl_sync _ (fun s a => by simp) _ _ hs)
  · exact foldl_sync _ (fun s a => by simp) _ _ hs

theorem field_bcs_kernel_sync (k : Kern) (va : Bool) (s s2 : ArgState)
    (h : field_bcs_kernel k va s = (s2, none)) (hs : sync s) : sync s2 := by
  unfold field_bcs_kernel at h
  dsimp only at h
  rcases hf : ((k.uniqueFss.find? (fun f => f.origName == "any_space_1")).or
      k.uniqueFss.getLast?) with _ | fspace <;> rw [hf] at h
  · simp at h
  · dsimp only at h
    split at h
    · simp only [ArgState.appendArrayReference] at h
      simp at h
      subst h
      simp [sync] at hs ⊢
      omega
    · simp at h

theorem operator_bcs_kernel_sync (k : Kern) (va : Bool) (s s2 : ArgState)
    (h : operator_bcs_kernel k va s = (s2, none)) (hs : sync s) :
    sync s2 := by
  unfold operator_bcs_kernel at h
  rcases hargs : k.args with _ | ⟨opArg, rest⟩ <;> rw [hargs] at h
  · simp at h
  · simp only [ArgState.appendArrayReference] at h
    simp at h
    subst h
    simp [sync] at hs ⊢
    omega

theorem mesh_properties_sync (k : Kern) (va : Bool) (s : ArgState)
    (hs : sync s) : sync (mesh_properties k va s) := by
  unfold mesh_properties
  have := foldl_lengths
    (fun s name =>
      (s.psyirAppend (PSyIRNode.arrayReference name
        [PSyIRNode.colon])).appendA name va none AccessType.read k.name)
    (fun s a => by simp) k.meshProps s
  simp [sync] at hs ⊢
  omega

/-- A normal run of the PSyIR-definition loop of `quad_rule` appends one
node per kernel argument and touches nothing else. -/
theorem quadPsyirLoop_normal (psyName : String) :
    ∀ (args : List String) (s s2 : ArgState),
      quadPsyirLoop psyName args s = (s2, none) →
      s2.arglist = s.arglist ∧
      s2.psyirArglist.length = s.psyirArglist.length + args.length ∧
      s2.accesses = s.accesses ∧
      s2.nlayersPositions = s.nlayersPositions ∧
      s2.nqpPositions = s.nqpPositions ∧
      s2.ndfPositions = s.ndfPositions ∧
      s2.generateCalled = s.generateCalled := by
  intro args
  induction args with
  | nil =>
    intro s s2 h
    simp [quadPsyirLoop] at h
    subst h
    simp
  | cons a rest ih =>
    intro s s2 h
    unfold quadPsyirLoop at h
    dsimp only at h
    split at h
    · have := ih _ _ h
      simp at this ⊢
      simp [this]
      omega
    · split at h
      · have := ih _ _ h
        simp at this ⊢
        simp [this]
        omega
      · split at h
        · have := ih _ _ h
          simp at this ⊢
          simp [this]
          omega
        · simp at h

/-- A normal run of the rule loop of `quad_rule` preserves the
synchronization invariant. -/
theorem quadRuleLoop_sync (k : Kern) (va : Bool) :
    ∀ (rules : List (String × QrRule)) (s s2 : ArgState),
      quadRuleLoop k va rules s = (s2, none) → sync s → sync s2 := by
  intro rules
  induction rules with
  | nil =>
    intro s s2 h hs
    simp [quadRuleLoop] at h
    subst h
    exact hs
  | cons r rest ih =>
    intro s s2 h hs
    unfold quadRuleLoop at h
    split at h
    · dsimp only at h
      rcases hq : quadPsyirLoop r.2.psyName r.2.kernelArgs
        (({ s with nqpPositions := s.nqpPositions ++
            [NqpPos.mk (s.arglist.length + 1) (s.arglist.length + 2)]
          } : ArgState).extendStrs r.2.kernelArgs va k.name)
        with ⟨s3, e⟩
      rw [hq] at h
      cases e with
      | none =>
        have hnorm := quadPsyirLoop_normal _ _ _ _ hq
        have h1 : s3.arglist.length =
            s.arglist.length + r.2.kernelArgs.length := by
          have := congrArg List.length hnorm.1
          simpa [ArgState.extendStrs] using this
        have h2 := hnorm.2.1
        refine ih _ _ h ?_
        simp [sync, ArgState.extendStrs] at hs h2 ⊢
        omega
      | some err => simp at h
    · split at h
      · dsimp only at h
        rcases hq : quadPsyirLoop r.2.psyName r.2.kernelArgs
            (s.extendStrs r.2.kernelArgs va k.name) with ⟨s3, e⟩
        rw [hq] at h
        cases e with
        | none =>
          have hnorm := quadPsyirLoop_normal _ _ _ _ hq
          have h1 : s3.arglist.length =
              s.arglist.length + r.2.kernelArgs.length := by
            have := congrArg List.length hnorm.1
            simpa [ArgState.extendStrs] using this
          have h2 := hnorm.2.1
          refine ih _ _ h ?_
          simp [sync, ArgState.extendStrs] at hs h2 ⊢
          omega
        | some err => simp at h
      · simp at h

theorem quad_rule_sync (k : Kern) (va : Bool) (s s2 : ArgState)
    (h : quad_rule k va s = (s2, none)) (hs : sync s) : sync s2 :=
  quadRuleLoop_sync k va k.qrRules s s2 h hs

/-- Every emit operation that returns normally preserves the
synchronization invariant between the flat argument list and the PSyIR
reference list. -/
theorem emitStep_sync (k : Kern) (va : Bool) (c : EmitCall)
    (s s2 : ArgState) (h : emitStep k va c s = (s2, none)) (hs : sync s) :
    sync s2 := by
  cases c with
  | cellPosition =>
    simp [emitStep] at h
    have := cell_position_lengths k va s
    subst h
    simp [sync] at hs ⊢
    omega
  | cellMap => exact cell_map_sync k va s s2 (by simpa [emitStep] using h) hs
  | meshHeight =>
    simp [emitStep] at h
    subst h
    rcases mesh_height_lengths k va s with ⟨h1, h2⟩ | heq
    · simp [sync] at hs ⊢
      omega
    · rw [heq]; exact hs
  | scalarArg a => exact scalar_sync k a va s s2 (by simpa [emitStep] using h) hs
  | meshNcell2d =>
    simp [emitStep] at h
    have := mesh_ncell2d_lengths k va s
    subst h
    simp [sync] at hs ⊢
    omega
  | meshNcell2dNoHalos =>
    simp [emitStep] at h
    have := mesh_ncell2d_no_halos_lengths k va s
    subst h
    simp [sync] at hs ⊢
    omega
  | cmaOperator a dp sp =>
    simp [emitStep] at h
    have := cma_operator_lengths k a dp sp va s
    subst h
    simp [sync] at hs ⊢
    omega
  | fieldVector a =>
    simp [emitStep] at h
    have := field_vector_lengths k a va s
    subst h
    simp [sync] at hs ⊢
    omega
  | fieldArg a =>
    simp [emitStep] at h
    have := field_lengths k a va s
    subst h
    simp [sync] at hs ⊢
    omega
  | stencilUnknownExtent a =>
    simp [emitStep] at h
    have := stencil_unknown_extent_lengths k a va s
    subst h
    simp [sync] at hs ⊢
    omega
  | stencil2dUnknownExtent a =>
    simp [emitStep] at h
    have := stencil_2d_unknown_extent_lengths k a va s
    subst h
    simp [sync] at hs ⊢
    omega
  | stencil2dMaxExtent a =>
    simp [emitStep] at h
    have := stencil_2d_max_extent_lengths k a va s
    subst h
    simp [sync] at hs ⊢
    omega
  | stencilUnknownDirection a =>
    simp [emitStep] at h
    have := stencil_unknown_direction_lengths k a va s
    subst h
    simp [sync] at hs ⊢
    omega
  | stencilArg a =>
    simp [emitStep] at h
    have := stencil_lengths k a va s
    subst h
    simp [sync] at hs ⊢
    omega
  | stencil2dArg a =>
    simp [emitStep] at h
    have := stencil_2d_lengths k a va s
    subst h
    simp [sync] at hs ⊢
    omega
  | operatorArg a =>
    simp [emitStep] at h
    have := operator_lengths k a va s
    subst h
    simp [sync] at hs ⊢
    omega
  | fsCommon fs =>
    simp [emitStep] at h
    subst h
    exact fs_common_sync k fs va s hs
  | fsCompulsoryField fs =>
    simp [emitStep] at h
    have := fs_compulsory_field_lengths k fs va s
    subst h
    simp [sync] at hs ⊢
    omega
  | fsIntergrid fs =>
    simp [emitStep] at h
    subst h
    exact fs_intergrid_sync k fs va s hs
  | basisCall fs =>
    simp [emitStep] at h
    subst h
    exact basis_sync k fs va s hs
  | diffBasisCall fs =>
    simp [emitStep] at h
    subst h
    exact diff_basis_sync k fs va s hs
  | fieldBcsKernel =>
    exact field_bcs_kernel_sync k va s s2 (by simpa [emitStep] using h) hs
  | operatorBcsKernel =>
    exact operator_bcs_kernel_sync k va s s2 (by simpa [emitStep] using h) hs
  | meshProperties =>
    simp [emitStep] at h
    subst h
    exact mesh_properties_sync k va s hs
  | quadRuleCall =>
    exact quad_rule_sync k va s s2 (by simpa [emitStep] using h) hs

/-- A normal run of any sequence of emit calls preserves the
synchronization invariant. -/
theorem runEmits_sync (k : Kern) (va : Bool) :
    ∀ (cs : List EmitCall) (s s2 : ArgState),
      runEmits k va cs s = (s2, none) → sync s → sync s2 := by
  intro cs
  induction cs with
  | nil =>
    intro s s2 h hs
    simp [runEmits] at h
    subst h
    exact hs
  | cons c rest ih =>
    intro s s2 h hs
    unfold runEmits at h
    rcases he : emitStep k va c s with ⟨s3, e⟩
    rw [he] at h
    cases e with
    | none => exact ih _ _ h (emitStep_sync k va c s s3 he hs)
    | some err => simp at h

/-! ### Characterizations used by the individual claims -/

theorem cell_ref_name_accesses (k : Kern) (va : Bool) (s : ArgState) :
    ((cell_ref_name k va s).2).accesses = s.accesses ++
      (if k.coloured then
        (if va then
          [⟨"colour", AccessType.read, k.name, []⟩,
           ⟨"cell", AccessType.read, k.name, []⟩,
           ⟨"cmap", AccessType.read, k.name, ["colour", "cell"]⟩]
         else [])
       else
        (if va then [⟨"cell", AccessType.read, k.name, []⟩] else [])) := by
  unfold cell_ref_name
  split <;> split <;> simp

/-- The component loop of `field_vector` appends, per index i, the string
`proxy(i)%data` and the matching array-of-structures node, and records no
ledger event. -/
theorem fieldVectorComponents_spec (p : String) :
    ∀ (l : List Nat) (s : ArgState),
      (fieldVectorComponents p l s).arglist = s.arglist ++
        l.map (fun i => p ++ "(" ++ toString i ++ ")%data") ∧
      (fieldVectorComponents p l s).psyirArglist = s.psyirArglist ++
        l.map (fun i => PSyIRNode.arrayOfStructuresReference p
          [PSyIRNode.literal (toString i)] ["data"]) ∧
      (fieldVectorComponents p l s).accesses = s.accesses := by
  intro l
  induction l with
  | nil => intro s; simp [fieldVectorComponents]
  | cons i t ih =>
    intro s
    unfold fieldVectorComponents
    simp only [List.foldl_cons]
    have := ih ((s.psyirAppend (PSyIRNode.arrayOfStructuresReference p
      [PSyIRNode.literal (toString i)] ["data"])).appendStr
      (p ++ "(" ++ toString i ++ ")%data"))
    unfold fieldVectorComponents at this
    simp at this ⊢
    simp [this]

/-- The auxiliary-component loop of `cma_operator` (components other than
the matrix) appends an integer reference and a string per component, each
recorded read-only in the ledger. -/
theorem cmaAuxFold_spec (k : Kern) (a : Arg) (va : Bool) :
    ∀ (cs : List String) (s : ArgState), "matrix" ∉ cs →
      (cs.foldl (fun s c => cmaComponentStep k a va s c) s).arglist =
        s.arglist ++ cs.map (fun c => a.name ++ "_" ++ c) ∧
      (cs.foldl (fun s c => cmaComponentStep k a va s c) s).accesses =
        s.accesses ++ (if va then
          cs.map (fun c => ⟨a.name ++ "_" ++ c, AccessType.read, k.name, []⟩)
          else []) := by
  intro cs
  induction cs with
  | nil => intro s _; simp
  | cons c t ih =>
    intro s hnm
    simp only [List.mem_cons, not_or] at hnm
    have hc : ¬(c = "matrix") := fun hc => hnm.1 hc.symm
    have hstep : cmaComponentStep k a va s c =
        (s.psyirAppend (PSyIRNode.reference (a.name ++ "_" ++ c))).appendA
          (a.name ++ "_" ++ c) va none AccessType.read k.name := by
      unfold cmaComponentStep
      dsimp only
      rw [if_neg hc]
      rfl
    simp only [List.foldl_cons, hstep]
    have := ih ((s.psyirAppend (PSyIRNode.reference (a.name ++ "_" ++ c))).appendA
      (a.name ++ "_" ++ c) va none AccessType.read k.name) hnm.2
    simp at this ⊢
    rcases this with ⟨t1, t2⟩
    constructor
    · simp [t1]
    · rw [t2]
      cases va <;> simp

/-- The full `cma_operator` characterization: the matrix payload comes
first with the metadata access mode; then the auxiliary scalars of the
set selected by comparing the "to" and "from" spaces, all read-only. -/
theorem cma_operator_spec (k : Kern) (a : Arg) (dp sp : List String)
    (va : Bool) (s : ArgState) (hdp : "matrix" ∉ dp) (hsp : "matrix" ∉ sp) :
    (cma_operator k a dp sp va s).arglist = s.arglist ++
      (a.name ++ "_" ++ "matrix") ::
        (if a.fsToName ≠ a.fsFromName then dp else sp).map
          (fun c => a.name ++ "_" ++ c) ∧
    (cma_operator k a dp sp va s).accesses = s.accesses ++
      (if va then
        (⟨a.name ++ "_" ++ "matrix", a.access, k.name, []⟩ :
          AccessEvent) ::
          (if a.fsToName ≠ a.fsFromName then dp else sp).map
            (fun c => ⟨a.name ++ "_" ++ c, AccessType.read, k.name, []⟩)
       else []) := by
  unfold cma_operator
  dsimp only
  simp only [List.foldl_cons]
  have hm : cmaComponentStep k a va s "matrix" =
      (s.psyirAppend (PSyIRNode.arrayReference (a.name ++ "_" ++ "matrix")
        [PSyIRNode.colon, PSyIRNode.colon, PSyIRNode.colon])).appendA
        (a.name ++ "_" ++ "matrix") va none a.access k.name := by
    unfold cmaComponentStep
    dsimp only
    rw [if_pos rfl]
    rfl
  rw [hm]
  have hsel : "matrix" ∉ (if a.fsToName ≠ a.fsFromName then dp else sp) := by
    split <;> assumption
  have := cmaAuxFold_spec k a va
    (if a.fsToName ≠ a.fsFromName then dp else sp)
    ((s.psyirAppend (PSyIRNode.arrayReference (a.name ++ "_" ++ "matrix")
      [PSyIRNode.colon, PSyIRNode.colon, PSyIRNode.colon])).appendA
      (a.name ++ "_" ++ "matrix") va none a.access k.name) hsel
  rcases this with ⟨t1, t2⟩
  constructor
  · rw [t1]; simp
  · rw [t2]
    cases va <;> simp

/-- `nqpPositions` after a normal `quadRuleLoop` run: one entry per XYoZ
rule, positioned just after the argument count reached when the rule is
processed; nothing for edge or face rules. -/
def claimedNqpEntries : List (String × QrRule) → Nat → List NqpPos
  | [], _ => []
  | (shape, rule) :: rest, n =>
    if shape = "gh_quadrature_xyoz" then
      ⟨n + 1, n + 2⟩ :: claimedNqpEntries rest (n + rule.kernelArgs.length)
    else claimedNqpEntries rest (n + rule.kernelArgs.length)

theorem quadRuleLoop_nqp (k : Kern) (va : Bool) :
    ∀ (rules : List (String × QrRule)) (s s2 : ArgState),
      quadRuleLoop k va rules s = (s2, none) →
      s2.nqpPositions = s.nqpPositions ++
        claimedNqpEntries rules s.arglist.length := by
  intro rules
  induction rules with
  | nil =>
    intro s s2 h
    simp [quadRuleLoop] at h
    subst h
    simp [claimedNqpEntries]
  | cons r rest ih =>
    intro s s2 h
    rcases r with ⟨shape, rule⟩
    unfold quadRuleLoop at h
    split at h
    · dsimp only at h
      rcases hq : quadPsyirLoop rule.psyName rule.kernelArgs
        (({ s with nqpPositions := s.nqpPositions ++
            [NqpPos.mk (s.arglist.length + 1) (s.arglist.length + 2)]
          } : ArgState).extendStrs rule.kernelArgs va k.name)
        with ⟨s3, e⟩
      rw [hq] at h
      cases e with
      | none =>
        have hnorm := quadPsyirLoop_normal _ _ _ _ hq
        have hrec := ih _ _ h
        have harg : s3.arglist.length =
            s.arglist.length + rule.kernelArgs.length := by
          have := congrArg List.length hnorm.1
          simpa [ArgState.extendStrs] using this
        have hnqp : s3.nqpPositions = s.nqpPositions ++
            [NqpPos.mk (s.arglist.length + 1) (s.arglist.length + 2)] := by
          have := hnorm.2.2.2.2.1
          simpa [ArgState.extendStrs] using this
        rw [hrec, hnqp, harg]
        simp only at *
        rw [claimedNqpEntries]
        simp_all
      | some err => simp at h
    · split at h
      · dsimp only at h
        rcases hq : quadPsyirLoop rule.psyName rule.kernelArgs
            (s.extendStrs rule.kernelArgs va k.name) with ⟨s3, e⟩
        rw [hq] at h
        cases e with
        | none =>
          have hnorm := quadPsyirLoop_normal _ _ _ _ hq
          have hrec := ih _ _ h
          have harg : s3.arglist.length =
              s.arglist.length + rule.kernelArgs.length := by
            have := congrArg List.length hnorm.1
            simpa [ArgState.extendStrs] using this
          have hnqp : s3.nqpPositions = s.nqpPositions := by
            have := hnorm.2.2.2.2.1
            simpa [ArgState.extendStrs] using this
          rw [hrec, hnqp, harg]
          rw [claimedNqpEntries]
          simp_all
        | some err => simp at h
      · simp at h

/-! ### Concrete inputs used by the witnesses -/

/-- A demonstration function space. -/
def fsDemo : FunctionSpace :=
  ⟨"w1", "ndf_w1", "undf_w1", "map_w1",
   fun q => "basis_w1_" ++ q, fun t => "basis_w1_on_" ++ t,
   fun q => "diff_basis_w1_" ++ q, fun t => "diff_basis_w1_on_" ++ t⟩

/-- A demonstration kernel argument (a field on `w1`). -/
def argDemo : Arg :=
  ⟨"f1", "f1_proxy", "f1_proxy(1)", "field_mod", "field_proxy_type",
   AccessType.inc, 0, 3, false, "real", "w1", "w2", "gh_fine", true,
   "gh_field", "dir1"⟩

/-- The XYoZ quadrature rule used in the demonstrations. -/
def qrXyozRule : QrRule :=
  ⟨"qr_xyoz", ["np_xy_qr_xyoz", "np_z_qr_xyoz", "weights_xy_qr_xyoz",
               "weights_z_qr_xyoz"]⟩

/-- The face quadrature rule used in the demonstrations. -/
def qrFaceRule : QrRule :=
  ⟨"qr_face", ["nfaces_qr_face", "np_xyz_qr_face", "weights_xyz_qr_face"]⟩

/-- A demonstration kernel: uncoloured, iterating over cell columns, one
XYoZ quadrature rule. -/
def kDemo : Kern :=
  ⟨"testkern", "cell_column", false, "cmap",
   [("gh_quadrature_xyoz", qrXyozRule)], [], [], [argDemo], [fsDemo], [],
   fun _ => argDemo⟩

/-- A kernel iterating over dofs (neither `cell_column` nor `domain`). -/
def kDofKern : Kern :=
  ⟨"dofkern", "dof", false, "cmap", [], [], [], [argDemo], [fsDemo], [],
   fun _ => argDemo⟩

/-- A kernel whose second quadrature rule has an unsupported shape. -/
def kMixedQr : Kern :=
  ⟨"qrkern", "cell_column", false, "cmap",
   [("gh_quadrature_face", qrFaceRule),
    ("gh_quadrature_wrong", QrRule.mk "qr_w" [])],
   [], [], [argDemo], [fsDemo], [], fun _ => argDemo⟩

/-- A kernel whose only quadrature rule has an unsupported shape. -/
def kBadQr : Kern :=
  ⟨"qrkern2", "cell_column", false, "cmap",
   [("gh_quadrature_wrong", QrRule.mk "qr_w" [])],
   [], [], [argDemo], [fsDemo], [], fun _ => argDemo⟩

/-- The demonstration auxiliary CMA parameter sets. -/
def dpDemo : List String := ["nrow", "ncol", "bandwidth"]

/-- See `dpDemo`. -/
def spDemo : List String := ["nrow", "bandwidth"]

/-- The demonstration traversal used by the C1 witness. -/
def csDemo : List EmitCall :=
  [EmitCall.cellPosition, EmitCall.meshHeight, EmitCall.fieldArg argDemo,
   EmitCall.fsCommon fsDemo, EmitCall.quadRuleCall]

/-! ### The claims -/

/-- C1: after every emit operation that returns normally, the flat string
argument list and the parallel PSyIR reference list have equal length —
for every traversal (any sequence of emit calls) and at every observation
point (the end state of any error-free run from a synchronized state). -/
theorem c1_sync_invariant (k : Kern) (va : Bool) (cs : List EmitCall)
    (s : ArgState) (hs : sync s) (h : (runEmits k va cs s).2 = none) :
    sync (runEmits k va cs s).1 := by
  rcases hr : runEmits k va cs s with ⟨s2, e⟩
  rw [hr] at h
  simp at h
  subst h
  exact runEmits_sync k va cs s s2 hr hs

theorem c1_sync_invariant_witness :
    sync ArgState.init ∧
    (runEmits kDemo true csDemo ArgState.init).2 = none ∧
    sync (runEmits kDemo true csDemo ArgState.init).1 :=
  ⟨by decide, by decide,
   c1_sync_invariant kDemo true csDemo ArgState.init (by decide) (by decide)⟩

/-- C2: querying any of the three position records before `generate()`
has frozen the orderer fails with the internal (precondition) error;
after freezing, every query succeeds and returns the positions recorded
during the traversal. -/
theorem c2_position_freeze_guard (s : ArgState) :
    (s.generateCalled = false →
      nlayers_positions s = Except.error (Err.internalError
        ("KernCallArgList: the generate() method should be called before " ++
         "the nlayers_positions() method")) ∧
      nqp_positions s = Except.error (Err.internalError
        ("KernCallArgList: the generate() method should be called before " ++
         "the nqp_positions() method")) ∧
      ndf_positions s = Except.error (Err.internalError
        ("KernCallArgList: the generate() method should be called before " ++
         "the ndf_positions() method"))) ∧
    (∀ (k : Kern) (va : Bool) (cs : List EmitCall),
      nlayers_positions (generate k va cs s).1 =
        Except.ok ((runEmits k va cs s).1.nlayersPositions) ∧
      nqp_positions (generate k va cs s).1 =
        Except.ok ((runEmits k va cs s).1.nqpPositions) ∧
      ndf_positions (generate k va cs s).1 =
        Except.ok ((runEmits k va cs s).1.ndfPositions)) := by
  constructor
  · intro hg
    simp [nlayers_positions, nqp_positions, ndf_positions, hg]
  · intro k va cs
    rcases hr : runEmits k va cs s with ⟨s3, e⟩
    simp [generate, hr, nlayers_positions, nqp_positions, ndf_positions]

theorem c2_position_freeze_guard_witness :
    ArgState.init.generateCalled = false ∧
    nlayers_positions ArgState.init = Except.error (Err.internalError
      ("KernCallArgList: the generate() method should be called before " ++
       "the nlayers_positions() method")) ∧
    nqp_positions ArgState.init = Except.error (Err.internalError
      ("KernCallArgList: the generate() method should be called before " ++
       "the nqp_positions() method")) ∧
    ndf_positions ArgState.init = Except.error (Err.internalError
      ("KernCallArgList: the generate() method should be called before " ++
       "the ndf_positions() method")) :=
  ⟨rfl, (c2_position_freeze_guard ArgState.init).1 rfl⟩

/-- C3: `cell_position` appends exactly one argument-list entry; with a
ledger supplied it records, for a coloured kernel, exactly the three read
events (colour loop variable, cell loop variable, colour map) and, for an
uncoloured kernel, exactly the single read event on the cell variable. -/
theorem c3_cell_index_accesses (k : Kern) (s : ArgState) :
    (cell_position k true s).arglist.length = s.arglist.length + 1 ∧
    (cell_position k true s).accesses = s.accesses ++
      (if k.coloured then
        [⟨"colour", AccessType.read, k.name, []⟩,
         ⟨"cell", AccessType.read, k.name, []⟩,
         ⟨"cmap", AccessType.read, k.name, ["colour", "cell"]⟩]
       else [⟨"cell", AccessType.read, k.name, []⟩]) := by
  refine ⟨(cell_position_lengths k true s).1, ?_⟩
  have ha := cell_ref_name_accesses k true s
  unfold cell_position
  rcases hcr : cell_ref_name k true s with ⟨⟨n, r⟩, s2⟩
  have ha : s2.accesses = s.accesses ++
      (if k.coloured then
        [⟨"colour", AccessType.read, k.name, []⟩,
         ⟨"cell", AccessType.read, k.name, []⟩,
         ⟨"cmap", AccessType.read, k.name, ["colour", "cell"]⟩]
       else [⟨"cell", AccessType.read, k.name, []⟩]) := by
    rw [hcr] at ha
    simpa using ha
  simpa using ha

/-- C4: `field_vector` on a vector of size N appends the N per-component
`proxy(i)%data` entries and the N matching array-of-structures nodes
(components 1 to N), but records exactly one ledger event, under the
field's own name with its declared access mode. -/
theorem c4_field_vector_aggregation (k : Kern) (a : Arg) (s : ArgState) :
    (field_vector k a true s).arglist = s.arglist ++
      (List.range' 1 a.vectorSize).map
        (fun i => a.proxyName ++ "(" ++ toString i ++ ")%data") ∧
    (field_vector k a true s).arglist.length =
      s.arglist.length + a.vectorSize ∧
    (field_vector k a true s).psyirArglist = s.psyirArglist ++
      (List.range' 1 a.vectorSize).map
        (fun i => PSyIRNode.arrayOfStructuresReference a.proxyName
          [PSyIRNode.literal (toString i)] ["data"]) ∧
    (field_vector k a true s).psyirArglist.length =
      s.psyirArglist.length + a.vectorSize ∧
    (field_vector k a true s).accesses =
      s.accesses ++ [⟨a.name, a.access, k.name, []⟩] := by
  unfold field_vector
  rcases fieldVectorComponents_spec a.proxyName (List.range' 1 a.vectorSize) s
    with ⟨h1, h2, h3⟩
  simp [h1, h2, h3]

/-- C5: `cma_operator` appends the matrix payload first, always with the
metadata-declared access mode; the auxiliary scalars that follow are the
"different spaces" set when the "to" and "from" spaces differ and the
"same space" set when they are equal, and every auxiliary scalar is
recorded read-only. -/
theorem c5_cma_selection (k : Kern) (a : Arg) (dp sp : List String)
    (hdp : "matrix" ∉ dp) (hsp : "matrix" ∉ sp) (s : ArgState) :
    (cma_operator k a dp sp true s).arglist = s.arglist ++
      (a.name ++ "_" ++ "matrix") ::
        (if a.fsToName ≠ a.fsFromName then dp else sp).map
          (fun c => a.name ++ "_" ++ c) ∧
    (cma_operator k a dp sp true s).accesses = s.accesses ++
      (⟨a.name ++ "_" ++ "matrix", a.access, k.name, []⟩ : AccessEvent) ::
        (if a.fsToName ≠ a.fsFromName then dp else sp).map
          (fun c => ⟨a.name ++ "_" ++ c, AccessType.read, k.name, []⟩) := by
  have := cma_operator_spec k a dp sp true s hdp hsp
  simpa using this

theorem c5_cma_selection_witness :
    ("matrix" ∉ dpDemo) ∧ ("matrix" ∉ spDemo) ∧
    ((cma_operator kDemo argDemo dpDemo spDemo true
        ArgState.init).arglist = ArgState.init.arglist ++
      (argDemo.name ++ "_" ++ "matrix") ::
        (if argDemo.fsToName ≠ argDemo.fsFromName then dpDemo
         else spDemo).map (fun c => argDemo.name ++ "_" ++ c) ∧
    (cma_operator kDemo argDemo dpDemo spDemo true
        ArgState.init).accesses = ArgState.init.accesses ++
      (⟨argDemo.name ++ "_" ++ "matrix", argDemo.access, kDemo.name, []⟩ :
        AccessEvent) ::
        (if argDemo.fsToName ≠ argDemo.fsFromName then dpDemo
         else spDemo).map
          (fun c =>
            ⟨argDemo.name ++ "_" ++ c, AccessType.read, kDemo.name, []⟩)) :=
  ⟨by decide, by decide,
   c5_cma_selection kDemo argDemo dpDemo spDemo (by decide) (by decide)
     ArgState.init⟩

/-- C6: `basis` emits one argument per quadrature rule plus — only when
an evaluator shape is requested — one argument per evaluator target
function space: R + T arguments, never R * T and never T alone. -/
theorem c6_basis_expansion (k : Kern) (fs : FunctionSpace) (va : Bool)
    (s : ArgState) :
    (basis k fs va s).arglist.length = s.arglist.length +
      k.qrRules.length +
      (if "gh_evaluator" ∈ k.evalShapes then k.evalTargets.length
       else 0) := by
  unfold basis
  dsimp only [ArgState.appendArrayReference]
  have h1 := foldl_lengths
    (fun s (sr : String × QrRule) =>
      (s.psyirAppend (PSyIRNode.arrayReference
        (fs.getBasisNameQr sr.2.psyName)
        [PSyIRNode.colon, PSyIRNode.colon, PSyIRNode.colon,
         PSyIRNode.colon])).appendA (fs.getBasisNameQr sr.2.psyName) va none
        AccessType.read k.name)
    (fun s a => by simp) k.qrRules s
  split
  · have h2 := foldl_lengths
      (fun s fsName =>
        (s.psyirAppend (PSyIRNode.arrayReference (fs.getBasisNameOn fsName)
          [PSyIRNode.colon, PSyIRNode.colon, PSyIRNode.colon])).appendA
          (fs.getBasisNameOn fsName) va none AccessType.read k.name)
      (fun s a => by simp) k.evalTargets
      (k.qrRules.foldl
        (fun s (sr : String × QrRule) =>
          (s.psyirAppend (PSyIRNode.arrayReference
            (fs.getBasisNameQr sr.2.psyName)
            [PSyIRNode.colon, PSyIRNode.colon, PSyIRNode.colon,
             PSyIRNode.colon])).appendA (fs.getBasisNameQr sr.2.psyName) va
            none AccessType.read k.name) s)
    omega
  · omega

/-- C7 counterexample: a kernel declaring a supported face rule followed
by an unsupported shape does fail with the NotImplementedError-class
error, but the face rule's three arguments have already been appended —
so "appends no arguments" is false as a universal statement. -/
theorem c7_counterexample :
    (quad_rule kMixedQr true ArgState.init).2 =
      some (Err.notImplementedError
        ("quad_rule: no support implemented for quadrature with a " ++
         "shape of '" ++ "gh_quadrature_wrong" ++ "'.")) ∧
    (quad_rule kMixedQr true ArgState.init).1.arglist =
      ["nfaces_qr_face", "np_xyz_qr_face", "weights_xyz_qr_face"] := by
  constructor <;> decide

/-- C7 (amended): when the kernel's first quadrature rule has a shape
outside the supported set, `quad_rule` fails with the
NotImplementedError-class error and appends nothing — the state is
returned unchanged. (Arguments of supported rules processed before an
unsupported one are retained.) -/
theorem c7_unsupported_shape_rejection (k : Kern) (va : Bool)
    (s : ArgState) (shape : String) (rule : QrRule)
    (rest : List (String × QrRule))
    (hr : k.qrRules = (shape, rule) :: rest)
    (h : shape ∉ supportedQrShapes) :
    quad_rule k va s =
      (s, some (Err.notImplementedError
        ("quad_rule: no support implemented for quadrature with a " ++
         "shape of '" ++ shape ++ "'."))) := by
  unfold quad_rule
  rw [hr]
  unfold quadRuleLoop
  dsimp only
  simp [supportedQrShapes] at h
  rw [if_neg h.1, if_neg (by rw [not_or]; exact ⟨h.2.1, h.2.2⟩)]

theorem c7_unsupported_shape_rejection_witness :
    kBadQr.qrRules = [("gh_quadrature_wrong", QrRule.mk "qr_w" [])] ∧
    "gh_quadrature_wrong" ∉ supportedQrShapes ∧
    quad_rule kBadQr true ArgState.init =
      (ArgState.init, some (Err.notImplementedError
        ("quad_rule: no support implemented for quadrature with a " ++
         "shape of '" ++ "gh_quadrature_wrong" ++ "'."))) :=
  ⟨rfl, by decide,
   c7_unsupported_shape_rejection kBadQr true ArgState.init
     "gh_quadrature_wrong" (QrRule.mk "qr_w" []) [] rfl (by decide)⟩

/-- C8: `field` appends exactly one argument whose string is the proxy's
data member (`proxy%data`) and whose PSyIR node is the structure access
into the proxy, while the ledger event is recorded under the field's own
name with the metadata-declared access mode. -/
theorem c8_field_identity (k : Kern) (a : Arg) (s : ArgState) :
    (field k a true s).arglist =
      s.arglist ++ [a.proxyName ++ "%data"] ∧
    (field k a true s).psyirArglist = s.psyirArglist ++
      [PSyIRNode.structureReference a.proxyName ["data"]] ∧
    (field k a true s).accesses =
      s.accesses ++ [⟨a.name, a.access, k.name, []⟩] := by
  unfold field
  simp

/-- C9: for a kernel iterating over anything other than `cell_column` or
`domain`, `fs_common` is a no-op — it appends no argument, no reference
node and no ndf position entry. -/
theorem c9_fs_common_guard (k : Kern) (fs : FunctionSpace) (va : Bool)
    (s : ArgState) (h1 : k.iteratesOver ≠ "cell_column")
    (h2 : k.iteratesOver ≠ "domain") :
    fs_common k fs va s = s := by
  unfold fs_common
  rw [if_neg (by rw [not_or]; exact ⟨h1, h2⟩)]

theorem c9_fs_common_guard_witness :
    kDofKern.iteratesOver ≠ "cell_column" ∧
    kDofKern.iteratesOver ≠ "domain" ∧
    fs_common kDofKern fsDemo true ArgState.init = ArgState.init :=
  ⟨by decide, by decide,
   c9_fs_common_guard kDofKern fsDemo true ArgState.init (by decide)
     (by decide)⟩

/-- C10: after a normal `quad_rule` run the quadrature-point position
records are exactly those of `claimedNqpEntries`: one entry per XYoZ
rule, with horizontal at n+1 and vertical at n+2 where n is the argument
count immediately before that rule's arguments are appended, and no
entry for edge or face rules. -/
theorem c10_nqp_positions_xyoz_only (k : Kern) (va : Bool) (s : ArgState)
    (h : (quad_rule k va s).2 = none) :
    (quad_rule k va s).1.nqpPositions = s.nqpPositions ++
      claimedNqpEntries k.qrRules s.arglist.length := by
  rcases hr : quad_rule k va s with ⟨s2, e⟩
  rw [hr] at h
  simp at h
  subst h
  unfold quad_rule at hr
  simpa using quadRuleLoop_nqp k va k.qrRules s s2 hr

theorem c10_nqp_positions_xyoz_only_witness :
    (quad_rule kDemo true ArgState.init).2 = none ∧
    (quad_rule kDemo true ArgState.init).1.nqpPositions =
      ArgState.init.nqpPositions ++
        claimedNqpEntries kDemo.qrRules ArgState.init.arglist.length :=
  ⟨by decide, c10_nqp_positions_xyoz_only kDemo true ArgState.init
    (by decide)⟩

end KernCallArgList
